import Mathlib

/-!
Verification development for the Homebase vault backend
(apps/desktop/src-tauri/src/vault.rs).

The Rust code manipulates filesystem paths as strings (Unix semantics:
`/` is the separator, a path is absolute iff it starts with `/`) and a
local filesystem.  We embed paths as `List Char` (the raw string), the
component structure via splitting on `/`, and the filesystem as a finite
association list from paths to file contents.
-/

namespace Homebase

/-- A raw path string, embedded as its character list. -/
abbrev Path := List Char

/-- Split a raw path string at every `/` character.  `splitSep p` is the
list of chunks of `p`; chunks can be empty (repeated or trailing
separators) or `"."`/`".."`. -/
def splitSep : Path → List Path
  | [] => [[]]
  | c :: rest =>
    if c = '/' then [] :: splitSep rest
    else
      match splitSep rest with
      | [] => [[c]]
      | chunk :: more => (c :: chunk) :: more

/-- Re-join chunks with `/`; the left inverse of `splitSep`. -/
def intercalateSlash : List Path → Path
  | [] => []
  | [c] => c
  | c :: rest => c ++ '/' :: intercalateSlash rest

/-- `Path::is_absolute` on Unix: the string starts with `/`. -/
def isAbs : Path → Bool
  | '/' :: _ => true
  | _ => false

/-- A chunk that yields a real component: Rust's component parser
normalizes away empty chunks and `.` chunks (other than a leading `.`,
which never arises in the positions we use this in). -/
def isNormalChunk (c : Path) : Bool :=
  !(c == [] || c == ['.'])

/-- The normal components of a path: its chunks with empty and `.`
chunks dropped. -/
def normals (p : Path) : List Path :=
  (splitSep p).filter isNormalChunk

/-- Does the path contain a `..` component?  Rust's `Components` yields
`Component::ParentDir` exactly for chunks equal to `..`. -/
def hasParent (p : Path) : Bool :=
  (splitSep p).contains ['.', '.']

/-- Embeds `validate_relative_path` (vault.rs:18-29): reject absolute
paths, reject any `..` component, otherwise return the path unchanged
(Rust returns the `PathBuf` built from the same string). -/
def validate_relative_path (p : Path) : Except String Path :=
  if isAbs p then .error "Path must be relative"
  else if hasParent p then .error "Path must not contain '..'"
  else .ok p

/-- Embeds `Path::join`/`PathBuf::push` for the cases used in vault.rs:
if the pushed path is absolute it replaces the base; otherwise it is
appended, with a `/` inserted unless the base is empty or already ends
with a separator. -/
def joinPath (a b : Path) : Path :=
  if isAbs b then b
  else if a = [] then b
  else if a.getLast? = some '/' then a ++ b
  else a ++ '/' :: b

/-- Embeds `homebase_vault_root` (vault.rs:13-16): `home.join("Homebase")`,
with the home directory supplied as a parameter (Rust reads it from the
OS). -/
def homebase_vault_root (home : Path) : Path :=
  joinPath home "Homebase".data

/-- Embeds `resolve_vault_path` (vault.rs:31-35): validate the relative
path, then join it onto the vault root. -/
def resolve_vault_path (home p : Path) : Except String Path :=
  match validate_relative_path p with
  | .error e => .error e
  | .ok rel => .ok (joinPath (homebase_vault_root home) rel)

/-- Embeds `path_to_forward_slashes` (vault.rs:91-93):
`to_string_lossy().replace('\\', "/")`. -/
def path_to_forward_slashes (p : Path) : Path :=
  p.map (fun c => if c = '\\' then '/' else c)

/-- Embeds `Components::as_path` applied to the remainder of a
`strip_prefix`: the raw remaining string with leading and trailing
empty and `.` chunks trimmed away (interior chunks are kept verbatim:
`as_path` returns a slice of the original string). -/
def asPathTrim (p : Path) : Path :=
  intercalateSlash
    ((((splitSep p).dropWhile (fun c => !(isNormalChunk c))).reverse.dropWhile
        (fun c => !(isNormalChunk c))).reverse)

/-- Embeds `relative_from_vault_root` (vault.rs:95-101) on the inputs the
code constructs: every caller passes `vault_root.join(rel)` or a path
produced by walking below the root, so the full path either equals the
root or extends it by `/` and a suffix; `Path::strip_prefix` then
succeeds and returns the suffix with leading/trailing empty and `.`
chunks trimmed (`Components::as_path`), and `path_to_forward_slashes`
replaces every backslash. -/
def relative_from_vault_root (home full : Path) : Except String Path :=
  let root := homebase_vault_root home
  if full = root then .ok []
  else if (root ++ ['/']).isPrefixOf full then
    .ok (path_to_forward_slashes (asPathTrim (full.drop (root.length + 1))))
  else .error "Path is outside vault"

/-- The spec-side normalization of a relative path, written from the
spec's words (§4.1, §8): drop empty and `.` segments and re-join the
remaining segments with forward slashes. -/
def specNormalize (p : Path) : Path :=
  intercalateSlash (normals p)

/-- Strict-descendant relation on absolute paths without `..`
components: the ancestor's normal components are a proper prefix of the
descendant's. -/
def strictDescendant (anc des : Path) : Prop :=
  (normals anc).isPrefixOf (normals des) = true ∧ normals anc ≠ normals des

instance (anc des : Path) : Decidable (strictDescendant anc des) := by
  unfold strictDescendant; infer_instance

/-- Well-formedness of the OS-reported home directory: absolute, no
`..` component, and not ending in a separator (true of every real
`dirs::home_dir()` result such as `/home/alice`). -/
def homeOk (home : Path) : Prop :=
  isAbs home = true ∧ hasParent home = false ∧ home.getLast? ≠ some '/'

instance (home : Path) : Decidable (homeOk home) := by
  unfold homeOk
  infer_instance

/-- A flat filesystem: a finite association of paths to file contents.
Directories are implicit (`create_dir_all` cannot fail in the model). -/
abbrev Fs := List (Path × String)

/-- Content of the file at `p`, if present. -/
def fsLookup (fs : Fs) (p : Path) : Option String :=
  (fs.find? (fun e => e.1 == p)).map (fun e => e.2)

/-- `fs::write`: create or truncate-and-replace the file at `p`. -/
def fsSet (fs : Fs) (p : Path) (c : String) : Fs :=
  (p, c) :: fs.filter (fun e => !(e.1 == p))

/-- `fs::remove_file`. -/
def fsRemove (fs : Fs) (p : Path) : Fs :=
  fs.filter (fun e => !(e.1 == p))

/-- `fs::rename src dst` for files: moves the content at `src` to
`dst` (no-op in the model when `src` is absent). -/
def fsRename (fs : Fs) (src dst : Path) : Fs :=
  match fsLookup fs src with
  | some c => fsSet (fsRemove fs src) dst c
  | none => fs

/-- The state of `write_atomic` (vault.rs:65-89) after the temp-file
write and the conditional remove of the destination: the destination is
removed if it exists. -/
def write_atomic_mid (fs : Fs) (path tmp : Path) (contents : String) : Fs :=
  if (fsLookup (fsSet fs tmp contents) path).isSome
  then fsRemove (fsSet fs tmp contents) path
  else fsSet fs tmp contents

/-- Embeds `write_atomic` (vault.rs:65-89), final state: write the
contents to the sibling temporary file `tmp` (its name carries a fresh
UUID), remove any pre-existing file at `path`, then rename `tmp` into
place. -/
def write_atomic_model (fs : Fs) (path tmp : Path) (contents : String) : Fs :=
  fsRename (write_atomic_mid fs path tmp contents) tmp path

/-- Every filesystem state visible during `write_atomic` (vault.rs:65-89),
in execution order: initial, after the temp-file write, after the
remove of the destination, after the rename. -/
def write_atomic_states (fs : Fs) (path tmp : Path) (contents : String) :
    List Fs :=
  [fs, fsSet fs tmp contents, write_atomic_mid fs path tmp contents,
    write_atomic_model fs path tmp contents]

/-- Rust `str::trim_end_matches('/')`: drop every trailing `/`. -/
def rustTrimEndSlashes (p : Path) : Path :=
  (p.reverse.dropWhile (fun c => c == '/')).reverse

/-- The target-directory gate of `vault_create_note` (vault.rs:279-285)
and `vault_create_note_from_markdown` (vault.rs:247-253): a plain
`starts_with` against `"notes/inbox"`, `"notes/folders"`,
`"notes/projects"` — with no trailing separator in the patterns. -/
def createTargetAllowed (t : Path) : Bool :=
  "notes/inbox".data.isPrefixOf t || "notes/folders".data.isPrefixOf t
    || "notes/projects".data.isPrefixOf t

/-- The target-directory gate of `vault_move_note` (vault.rs:354-363):
exact match or prefix-with-separator for each of the three subtrees. -/
def moveTargetAllowed (t : Path) : Bool :=
  "notes/inbox/".data.isPrefixOf t || t == "notes/inbox".data
    || "notes/folders/".data.isPrefixOf t || t == "notes/folders".data
    || "notes/projects/".data.isPrefixOf t || t == "notes/projects".data

/-- The confinement predicate stated by the claim/spec (§3 invariants):
the target directory is `notes/inbox`, `notes/folders`, or
`notes/projects`, or lies strictly inside one of those subtrees. -/
def inAllowedSubtrees (t : Path) : Bool :=
  t == "notes/inbox".data || t == "notes/folders".data
    || t == "notes/projects".data
    || "notes/inbox/".data.isPrefixOf t || "notes/folders/".data.isPrefixOf t
    || "notes/projects/".data.isPrefixOf t

/-- Target-directory processing shared by `vault_create_note`
(vault.rs:276-285) and `vault_create_note_from_markdown`
(vault.rs:244-253): default to the inbox, validate, forward-slash, and
apply the `starts_with` gate. -/
def vault_create_note_target (targetDir : Option Path) : Except String Path :=
  match validate_relative_path (targetDir.getD "notes/inbox".data) with
  | .error e => .error e
  | .ok rel =>
    if createTargetAllowed (path_to_forward_slashes rel) then
      .ok (path_to_forward_slashes rel)
    else .error
      "Target directory must be under notes/inbox, notes/folders, or notes/projects"

/-- The frontmatter block of `vault_create_note` (vault.rs:290-293). -/
def frontmatter (idFull nowIso : String) (userPlaced : Bool) : String :=
  "---\nid: " ++ idFull ++ "\ncreated: " ++ nowIso ++ "\nmodified: "
    ++ nowIso ++ "\nprojects: []\ntopics: []\nuser_placed: "
    ++ (if userPlaced then "true" else "false") ++ "\n---\n\n"

/-- Embeds `vault_create_note` (vault.rs:266-303).  The generated UUID
and timestamps enter as parameters (`idShort` is the first 8 characters
of the simple UUID form, `date` the local date); the filesystem is
keyed by vault-relative path.  Returns the relative path, the contents,
and the filesystem after the `write_atomic` call — note there is no
existence check before the write. -/
def vault_create_note_model (fs : Fs) (targetDir : Option Path)
    (date idShort : Path) (idFull nowIso : String) (tmp : Path) :
    Except String (Path × String × Fs) :=
  match vault_create_note_target targetDir with
  | .error e => .error e
  | .ok t =>
    let fileName := date ++ "-untitled-".data ++ idShort ++ ".md".data
    let relPath := rustTrimEndSlashes t ++ '/' :: fileName
    let userPlaced := !("notes/inbox/".data.isPrefixOf relPath)
    let contents := frontmatter idFull nowIso userPlaced
    .ok (relPath, contents, write_atomic_model fs relPath tmp contents)

/-- Rust `str::trim`: drop leading and trailing whitespace. -/
def rustTrim (s : Path) : Path :=
  ((s.dropWhile Char.isWhitespace).reverse.dropWhile Char.isWhitespace).reverse

/-- The character loop of `slugify` (vault.rs:489-498): lower-case each
character; ASCII alphanumerics are kept, every other run collapses to a
single `-`. -/
def slugifyLoop : Path → Bool → Path
  | [], _ => []
  | c :: rest, lastDash =>
    let lower := c.toLower
    if lower.isAlphanum then lower :: slugifyLoop rest false
    else if !lastDash then '-' :: slugifyLoop rest true
    else slugifyLoop rest lastDash

/-- Rust `str::trim_matches('-')`: drop leading and trailing dashes. -/
def rustTrimDashes (s : Path) : Path :=
  ((s.dropWhile (fun c => c == '-')).reverse.dropWhile
    (fun c => c == '-')).reverse

/-- Embeds `slugify` (vault.rs:486-505): trim, collapse, trim dashes;
an empty result becomes the literal `"project"`. -/
def slugify (input : Path) : Path :=
  let out := rustTrimDashes (slugifyLoop (rustTrim input) false)
  if out = [] then "project".data else out

/-- The slug component of the `vault_create_note_from_markdown` filename
(vault.rs:237-241): `slugify(title_hint)`, or the literal `"note"` when
`title_hint` is absent. -/
def fromMarkdownSlug (titleHint : Option Path) : Path :=
  match titleHint with
  | some t => slugify t
  | none => "note".data

/-- The id component of the `vault_create_note_from_markdown` filename
(vault.rs:230-235): the first 8 non-dash characters of the trimmed id,
or the supplied 8 random hex characters when none remain. -/
def fromMarkdownIdShort (idTrimmed randHex : Path) : Path :=
  let s := (idTrimmed.filter (fun c => !(c == '-'))).take 8
  if s = [] then randHex else s

/-- The filename of `vault_create_note_from_markdown` (vault.rs:242):
`format!("{}-{}-{}.md", date, slug, id_short)`. -/
def fromMarkdownFileName (date : Path) (titleHint : Option Path)
    (idTrimmed randHex : Path) : Path :=
  date ++ '-' :: fromMarkdownSlug titleHint
    ++ '-' :: fromMarkdownIdShort idTrimmed randHex ++ ".md".data

/-- Outcome of `vault_archive_note` on success: either the note was
already archived (no-op, returning its current path) or it was renamed
to the mirrored position under `notes/archive` (with intermediate
directories created by `create_dir_all`). -/
inductive ArchiveResult
  | noop (p : Path)
  | moved (target : Path)
deriving DecidableEq

/-- Fuel-driven loop for Rust `str::trim_start_matches`, which removes
*repeated* occurrences of the pattern from the start; `s.length` fuel
suffices since each step shortens `s`. -/
def trimStartLoop : Nat → Path → Path → Path
  | 0, s, _ => s
  | n + 1, s, pat =>
    if pat.isPrefixOf s && !pat.isEmpty then
      trimStartLoop n (s.drop pat.length) pat
    else s

/-- Rust `str::trim_start_matches(pat)`. -/
def rustTrimStartMatches (s pat : Path) : Path :=
  trimStartLoop s.length s pat

/-- Embeds `vault_archive_note` (vault.rs:311-339): validate the path;
fail `NotFound` when the source is absent; no-op when already under
`notes/archive/`; fail `InvalidArgument` when not under `notes/`;
otherwise rename to `notes/archive/` ++ the path with its leading
`notes/` occurrences trimmed.  The existence of the source file enters
as `srcExists` (the model abstracts the `source.exists()` probe). -/
def vault_archive_note_model (srcExists : Bool) (relativePath : Path) :
    Except String ArchiveResult :=
  match validate_relative_path relativePath with
  | .error e => .error e
  | .ok rel =>
    if !srcExists then .error "Note does not exist"
    else if "notes/archive/".data.isPrefixOf (path_to_forward_slashes rel) then
      .ok (.noop (path_to_forward_slashes rel))
    else if !("notes/".data.isPrefixOf (path_to_forward_slashes rel)) then
      .error "Can only archive notes under notes/"
    else
      .ok (.moved ("notes/archive/".data
        ++ rustTrimStartMatches (path_to_forward_slashes rel) "notes/".data))

/-- The `.project.json` sidecar record (vault.rs:465-473). -/
structure ProjectMeta where
  id : String
  name : String
  status : String
  created : String
  modified : String
deriving DecidableEq

/-- One immediate child of `notes/projects` as seen by
`list_projects_internal`: its path, whether it is a directory, and its
`.project.json` sidecar — `none` when the file does not exist, `some`
carrying the result of reading and parsing it (`read_project_meta`,
vault.rs:507-510). -/
structure ProjEntry where
  path : Path
  isDir : Bool
  sidecar : Option (Except String ProjectMeta)

/-- Embeds `list_projects_internal` (vault.rs:517-536) over the directory
entries of `notes/projects`, in iteration order: non-directories are
skipped, directories without a sidecar are skipped, a sidecar that fails
to parse aborts the whole call with that error, and parseable sidecars
are collected. -/
def listProjectsInternal :
    List ProjEntry → Except String (List (Path × ProjectMeta))
  | [] => .ok []
  | e :: rest =>
    if e.isDir then
      match e.sidecar with
      | none => listProjectsInternal rest
      | some (.error msg) => .error msg
      | some (.ok m) =>
        match listProjectsInternal rest with
        | .error msg => .error msg
        | .ok l => .ok ((e.path, m) :: l)
    else listProjectsInternal rest

/-- The spec-side characterization of a successful listing: exactly the
directories with a parseable sidecar, in order. -/
def projFilter (entries : List ProjEntry) : List (Path × ProjectMeta) :=
  entries.filterMap (fun e =>
    if e.isDir then
      match e.sidecar with
      | some (.ok m) => some (e.path, m)
      | _ => none
    else none)

/-- The sidecar record after `vault_update_project` applies the
supplied field changes (vault.rs:619-625): `name` and `status` are
overwritten when supplied, `modified` is always refreshed (the two
sequential `if let Some` updates collapse to `getD`, since the name
update does not read `status` nor vice versa). -/
def updatedMeta (meta : ProjectMeta) (nameArg statusArg : Option String)
    (now : String) : ProjectMeta :=
  { meta with
      name := nameArg.getD meta.name,
      status := statusArg.getD meta.status,
      modified := now }

/-- The directory `vault_update_project` renames to when a name was
supplied (vault.rs:629-635): the slug of the new name under
`notes/projects`, suffix-disambiguated when that directory exists and
is not the project's own current directory. -/
def projectRenameTarget (dirExists : Path → Bool) (folderPath desired short :
    Path) : Path :=
  if dirExists desired && !(desired == folderPath) then desired ++ '-' :: short
  else desired

/-- Embeds the post-lookup logic of `vault_update_project`
(vault.rs:609-654).  The project found by id carries its current folder
path (vault-relative) and sidecar record; `dirExists` is the snapshot
existence predicate used for the collision check, `now` the refreshed
timestamp, `short` the random 6-hex suffix.  Returns the final folder
path and the sidecar record written there; the `fs::rename` happens
exactly when the returned path differs from `folderPath`
(vault.rs:636-640). -/
def vault_update_project_model (dirExists : Path → Bool) (folderPath : Path)
    (meta : ProjectMeta) (nameArg statusArg : Option String) (now : String)
    (short : Path) : Path × ProjectMeta :=
  match nameArg with
  | none => (folderPath, updatedMeta meta nameArg statusArg now)
  | some _ =>
    if projectRenameTarget dirExists folderPath
        ("notes/projects/".data
          ++ slugify (updatedMeta meta nameArg statusArg now).name.data)
        short == folderPath then
      (folderPath, updatedMeta meta nameArg statusArg now)
    else
      (projectRenameTarget dirExists folderPath
        ("notes/projects/".data
          ++ slugify (updatedMeta meta nameArg statusArg now).name.data)
        short, updatedMeta meta nameArg statusArg now)

/-- Whether `WalkDir::new(root).min_depth(1)` yields at least one item,
over a flat list of the existing filesystem nodes (vault-relative): if
the walk root itself cannot be read (it does not exist), walkdir's first
item is an `Err` entry for the root — `min_depth` filters only `Ok`
entries — so the iterator is nonempty; otherwise there is an item iff
some existing node lies strictly below the root. -/
def walkdirHasEntryMinDepth1 (fsPaths : List Path) (root : Path) : Bool :=
  if fsPaths.contains root then
    fsPaths.any (fun p => (root ++ ['/']).isPrefixOf p)
  else true

/-- Embeds `vault_delete_folder` (vault.rs:445-463): validate, require
the `notes/folders/` prefix, then fail `NotEmpty` if the walk (min
depth 1) yields any entry; otherwise `remove_dir` (abstracted as
success). -/
def vault_delete_folder_model (fsPaths : List Path) (relativePath : Path) :
    Except String Unit :=
  match validate_relative_path relativePath with
  | .error e => .error e
  | .ok rel =>
    if !("notes/folders/".data.isPrefixOf (path_to_forward_slashes rel)) then
      .error "Folder path must start with notes/folders/"
    else if walkdirHasEntryMinDepth1 fsPaths rel then
      .error "Folder is not empty"
    else .ok ()

theorem splitSep_ne_nil (p : Path) : splitSep p ≠ [] := by
  induction p with
  | nil => simp [splitSep]
  | cons c rest ih =>
    unfold splitSep
    split
    · simp
    · cases h : splitSep rest <;> simp

theorem splitSep_append (a b : Path) :
    splitSep (a ++ '/' :: b) = splitSep a ++ splitSep b := by
  induction a with
  | nil => simp [splitSep]
  | cons c rest ih =>
    by_cases hc : c = '/'
    · subst hc
      simp [splitSep, ih]
    · simp only [List.cons_append, splitSep, hc, if_false, ite_false]
      rw [List.append_eq, ih]
      cases h : splitSep rest with
      | nil => exact absurd h (splitSep_ne_nil rest)
      | cons k more => simp

theorem intercalateSlash_splitSep (p : Path) :
    intercalateSlash (splitSep p) = p := by
  induction p with
  | nil => simp [splitSep, intercalateSlash]
  | cons c rest ih =>
    by_cases hc : c = '/'
    · subst hc
      unfold splitSep
      rw [if_pos rfl]
      cases h : splitSep rest with
      | nil => exact absurd h (splitSep_ne_nil rest)
      | cons k more =>
        unfold intercalateSlash
        rw [← h, ih]
        simp
    · unfold splitSep
      rw [if_neg hc]
      cases h : splitSep rest with
      | nil => exact absurd h (splitSep_ne_nil rest)
      | cons k more =>
        cases more with
        | nil =>
          simp only [intercalateSlash]
          have := ih
          rw [h] at this
          simp only [intercalateSlash] at this
          simp [this]
        | cons k2 m2 =>
          simp only [intercalateSlash]
          have := ih
          rw [h] at this
          simp only [intercalateSlash] at this
          simp [this]

theorem normals_append (a b : Path) :
    normals (a ++ '/' :: b) = normals a ++ normals b := by
  unfold normals
  rw [splitSep_append, List.filter_append]

theorem isPrefixOf_append_self (l t : List Char) :
    l.isPrefixOf (l ++ t) = true := by
  induction l with
  | nil => simp [List.isPrefixOf]
  | cons a as ih => simp [List.isPrefixOf, ih]

theorem chunks_isPrefixOf_append_self (l t : List Path) :
    l.isPrefixOf (l ++ t) = true := by
  induction l with
  | nil => simp [List.isPrefixOf]
  | cons a as ih => simp [List.isPrefixOf, ih]

theorem homeOk_ne_nil {home : Path} (hh : homeOk home) : home ≠ [] := by
  obtain ⟨h1, _, _⟩ := hh
  cases home with
  | nil => simp [isAbs] at h1
  | cons c cs => simp

theorem vault_root_eq (home : Path) (hh : homeOk home) :
    homebase_vault_root home = home ++ '/' :: "Homebase".data := by
  have hne : home ≠ [] := homeOk_ne_nil hh
  obtain ⟨h1, h2, h3⟩ := hh
  unfold homebase_vault_root joinPath
  rw [if_neg (by decide : ¬ isAbs "Homebase".data = true),
    if_neg hne, if_neg h3]

theorem vault_root_getLast (home : Path) (hh : homeOk home) :
    (homebase_vault_root home).getLast? = some 'e' := by
  rw [vault_root_eq home hh]
  rw [show ('/' :: "Homebase".data) = '/' :: "Homebase".data from rfl]
  rw [List.getLast?_append_cons]
  decide

/-- The resolved path of an accepted relative path: the vault root, a
separator, and the raw relative path. -/
theorem resolve_vault_path_ok (home p : Path) (hh : homeOk home)
    (hp : isAbs p = false) (hpp : hasParent p = false) :
    resolve_vault_path home p
      = .ok (homebase_vault_root home ++ '/' :: p) := by
  have h1 : homebase_vault_root home ≠ [] := by
    rw [vault_root_eq home hh]
    simp [homeOk_ne_nil hh]
  have h2 : (homebase_vault_root home).getLast? ≠ some '/' := by
    rw [vault_root_getLast home hh]
    simp
  simp [resolve_vault_path, validate_relative_path, joinPath, hp, hpp, h1, h2]

/-- **C1** (amended).  `resolve_vault_path` fails for every absolute
path and for every path containing a `..` component, before any
filesystem access (the embedded function is pure); every other path is
accepted and resolves to vault-root ++ "/" ++ path, which is a strict
descendant of the vault root whenever the path has at least one normal
(non-empty, non-`.`) component, and which denotes the vault root itself
(same normal components) otherwise — so the claim's "strict descendant"
fails exactly for paths such as `"."` or `""` whose components all
normalize away. -/
theorem resolve_vault_path_sandbox (home p : Path) (hh : homeOk home) :
    ((isAbs p = true ∨ hasParent p = true) →
        resolve_vault_path home p = .error "Path must be relative" ∨
        resolve_vault_path home p = .error "Path must not contain '..'")
    ∧ (isAbs p = false → hasParent p = false →
        resolve_vault_path home p
          = .ok (homebase_vault_root home ++ '/' :: p)
        ∧ (normals p ≠ [] →
            strictDescendant (homebase_vault_root home)
              (homebase_vault_root home ++ '/' :: p))
        ∧ (normals p = [] →
            normals (homebase_vault_root home ++ '/' :: p)
              = normals (homebase_vault_root home))) := by
  constructor
  · intro h
    unfold resolve_vault_path validate_relative_path
    rcases h with h | h
    · left
      rw [if_pos (by simp [h])]
    · by_cases ha : isAbs p = true
      · left
        rw [if_pos (by simp [ha])]
      · right
        rw [if_neg (by simp_all), if_pos (by simp [h])]
  · intro hp hpp
    refine ⟨resolve_vault_path_ok home p hh hp hpp, ?_, ?_⟩
    · intro hn
      constructor
      · rw [normals_append]
        exact chunks_isPrefixOf_append_self _ _
      · rw [normals_append]
        intro hcontra
        have := congrArg List.length hcontra
        simp at this
        exact hn this
    · intro hn
      rw [normals_append, hn, List.append_nil]

/-- **C1** counterexample.  The concrete valid relative path `"."`
(no `..` component, not absolute) is accepted by `resolve_vault_path`,
but the resolved path is **not** a strict descendant of the vault root:
it has exactly the vault root's normal components, i.e. it denotes the
root directory itself. -/
theorem resolve_vault_path_dot_not_strict :
    (resolve_vault_path "/home/user".data ".".data).isOk = true
    ∧ resolve_vault_path "/home/user".data ".".data
        = .ok ("/home/user/Homebase/.".data)
    ∧ ¬ strictDescendant (homebase_vault_root "/home/user".data)
        "/home/user/Homebase/.".data
    ∧ normals "/home/user/Homebase/.".data
        = normals (homebase_vault_root "/home/user".data) := by
  refine ⟨rfl, rfl, by decide, by decide⟩

/-- Witness for `resolve_vault_path_sandbox`: home `/home/user`,
relative path `notes/inbox/a.md`. -/
theorem resolve_vault_path_sandbox_witness :
    resolve_vault_path "/home/user".data "notes/inbox/a.md".data
      = .ok (homebase_vault_root "/home/user".data
          ++ '/' :: "notes/inbox/a.md".data)
    ∧ strictDescendant (homebase_vault_root "/home/user".data)
        (homebase_vault_root "/home/user".data
          ++ '/' :: "notes/inbox/a.md".data) :=
  have h := resolve_vault_path_sandbox "/home/user".data
    "notes/inbox/a.md".data (by decide)
  ⟨(h.2 (by decide) (by decide)).1, (h.2 (by decide) (by decide)).2.1 (by decide)⟩

theorem backslash_not_mem_fwd (q : Path) :
    '\\' ∉ path_to_forward_slashes q := by
  unfold path_to_forward_slashes
  intro hmem
  obtain ⟨a, _, ha⟩ := List.mem_map.mp hmem
  by_cases h : a = '\\' <;> simp [h] at ha

theorem dropWhile_all_normal (l : List Path) (h : l.all isNormalChunk = true) :
    l.dropWhile (fun c => !(isNormalChunk c)) = l := by
  cases l with
  | nil => rfl
  | cons a as =>
    have := (List.all_eq_true.mp h) a (by simp)
    simp [List.dropWhile, this]

theorem asPathTrim_all_normal (p : Path)
    (h : (splitSep p).all isNormalChunk = true) : asPathTrim p = p := by
  unfold asPathTrim
  rw [dropWhile_all_normal _ h,
    dropWhile_all_normal _ (by simpa using h), List.reverse_reverse,
    intercalateSlash_splitSep]

theorem fwd_of_no_backslash (p : Path) (h : '\\' ∉ p) :
    path_to_forward_slashes p = p := by
  unfold path_to_forward_slashes
  conv_rhs => rw [← List.map_id p]
  apply List.map_congr_left
  intro a ha
  have : a ≠ '\\' := fun hc => h (hc ▸ ha)
  simp [this]

/-- For a valid relative path, stripping the vault root from the
resolved path succeeds and yields the raw relative path with leading
and trailing empty/`.` chunks trimmed and backslashes replaced. -/
theorem relative_from_vault_root_resolved (home p : Path) :
    relative_from_vault_root home (homebase_vault_root home ++ '/' :: p)
      = .ok (path_to_forward_slashes (asPathTrim p)) := by
  have hfull : homebase_vault_root home ++ '/' :: p
      = (homebase_vault_root home ++ ['/']) ++ p := by
    simp
  have hne : ¬ (homebase_vault_root home ++ '/' :: p = homebase_vault_root home) := by
    intro heq
    have := congrArg List.length heq
    simp at this
  have hpre : (homebase_vault_root home ++ ['/']).isPrefixOf
      (homebase_vault_root home ++ '/' :: p) = true := by
    rw [hfull]
    exact isPrefixOf_append_self _ _
  have hdrop : (homebase_vault_root home ++ '/' :: p).drop
      ((homebase_vault_root home).length + 1) = p := by
    rw [hfull]
    have : (homebase_vault_root home).length + 1
        = (homebase_vault_root home ++ ['/']).length := by simp
    rw [this, List.drop_left]
  unfold relative_from_vault_root
  simp only [hne, if_false, ite_false, hpre, if_true, ite_true, hdrop]

/-- **C3** (amended).  For every valid relative path `p`,
`relative_from_vault_root (resolve_vault_path p)` succeeds and returns
the raw `p` with leading/trailing empty and `.` segments trimmed and
every backslash replaced by `/`; the returned string never contains a
backslash.  It equals the spec's normalization of `p` whenever every
`/`-separated segment of `p` is normal (non-empty and not `.`) and `p`
contains no backslash; interior `.`/empty segments (e.g. `a/./b`) and
literal backslashes in file names break the round-trip equality as
stated. -/
theorem relative_roundtrip (home p : Path) (hh : homeOk home)
    (hp : isAbs p = false) (hpp : hasParent p = false) :
    (resolve_vault_path home p
        = .ok (homebase_vault_root home ++ '/' :: p)
      ∧ relative_from_vault_root home (homebase_vault_root home ++ '/' :: p)
          = .ok (path_to_forward_slashes (asPathTrim p))
      ∧ '\\' ∉ path_to_forward_slashes (asPathTrim p))
    ∧ ((splitSep p).all isNormalChunk = true → '\\' ∉ p →
        relative_from_vault_root home (homebase_vault_root home ++ '/' :: p)
          = .ok (specNormalize p)
        ∧ specNormalize p = p) := by
  refine ⟨⟨resolve_vault_path_ok home p hh hp hpp,
    relative_from_vault_root_resolved home p,
    backslash_not_mem_fwd _⟩, ?_⟩
  intro hall hbs
  have hspec : specNormalize p = p := by
    unfold specNormalize normals
    rw [List.filter_eq_self.mpr (List.all_eq_true.mp hall),
      intercalateSlash_splitSep]
  refine ⟨?_, hspec⟩
  rw [relative_from_vault_root_resolved home p,
    asPathTrim_all_normal p hall, fwd_of_no_backslash p hbs, hspec]

/-- **C3** counterexample.  Two concrete valid relative paths where
`relative_from_root(resolve(p))` differs from the normalization of `p`:
an interior `.` segment survives in the returned string (`a/./b` comes
back verbatim, while its normalization is `a/b`), and on a Unix host a
file name containing a literal backslash (`a\b`, a single path
component) is corrupted to `a/b` by the forward-slash replacement while
its normalization is `a\b` itself. -/
theorem relative_roundtrip_counterexample :
    (resolve_vault_path "/home/user".data "a/./b".data
        = .ok "/home/user/Homebase/a/./b".data
      ∧ relative_from_vault_root "/home/user".data
          "/home/user/Homebase/a/./b".data = .ok "a/./b".data
      ∧ specNormalize "a/./b".data = "a/b".data
      ∧ "a/./b".data ≠ "a/b".data)
    ∧ (resolve_vault_path "/home/user".data "a\\b".data
        = .ok "/home/user/Homebase/a\\b".data
      ∧ relative_from_vault_root "/home/user".data
          "/home/user/Homebase/a\\b".data = .ok "a/b".data
      ∧ specNormalize "a\\b".data = "a\\b".data
      ∧ "a/b".data ≠ "a\\b".data) :=
  ⟨⟨rfl, rfl, by decide, by decide⟩, ⟨rfl, rfl, by decide, by decide⟩⟩

/-- Witness for `relative_roundtrip`: home `/home/user`, p `notes/x.md`. -/
theorem relative_roundtrip_witness :
    relative_from_vault_root "/home/user".data
        (homebase_vault_root "/home/user".data ++ '/' :: "notes/x.md".data)
      = .ok (specNormalize "notes/x.md".data)
    ∧ specNormalize "notes/x.md".data = "notes/x.md".data :=
  (relative_roundtrip "/home/user".data "notes/x.md".data (by decide)
    (by decide) (by decide)).2 (by decide) (by decide)

theorem fsLookup_set_self (fs : Fs) (p : Path) (c : String) :
    fsLookup (fsSet fs p c) p = some c := by
  simp [fsLookup, fsSet, List.find?]

theorem fsLookup_set_ne (fs : Fs) (p q : Path) (c : String) (h : q ≠ p) :
    fsLookup (fsSet fs p c) q = fsLookup fs q := by
  simp only [fsLookup, fsSet]
  rw [List.find?_cons_of_neg _ (by simp [Ne.symm h])]
  congr 1
  induction fs with
  | nil => rfl
  | cons e rest ih =>
    by_cases he : e.1 = p
    · rw [List.filter_cons_of_neg (by simp [he])]
      rw [List.find?_cons_of_neg _ (by simp [he, Ne.symm h])]
      exact ih
    · rw [List.filter_cons_of_pos (by simp [he])]
      by_cases hq : e.1 = q
      · rw [List.find?_cons_of_pos _ (by simp [hq]),
          List.find?_cons_of_pos _ (by simp [hq])]
      · rw [List.find?_cons_of_neg _ (by simp [hq]),
          List.find?_cons_of_neg _ (by simp [hq])]
        exact ih

theorem fsLookup_remove_self (fs : Fs) (p : Path) :
    fsLookup (fsRemove fs p) p = none := by
  simp only [fsLookup, fsRemove]
  induction fs with
  | nil => rfl
  | cons e rest ih =>
    by_cases he : e.1 = p
    · rw [List.filter_cons_of_neg (by simp [he])]
      exact ih
    · rw [List.filter_cons_of_pos (by simp [he]),
        List.find?_cons_of_neg _ (by simp [he])]
      exact ih

theorem fsLookup_remove_ne (fs : Fs) (p q : Path) (h : q ≠ p) :
    fsLookup (fsRemove fs p) q = fsLookup fs q := by
  simp only [fsLookup, fsRemove]
  congr 1
  induction fs with
  | nil => rfl
  | cons e rest ih =>
    by_cases he : e.1 = p
    · rw [List.filter_cons_of_neg (by simp [he])]
      rw [List.find?_cons_of_neg _ (by simp [he, Ne.symm h])]
      exact ih
    · rw [List.filter_cons_of_pos (by simp [he])]
      by_cases hq : e.1 = q
      · rw [List.find?_cons_of_pos _ (by simp [hq]),
          List.find?_cons_of_pos _ (by simp [hq])]
      · rw [List.find?_cons_of_neg _ (by simp [hq]),
          List.find?_cons_of_neg _ (by simp [hq])]
        exact ih

/-- After `write_atomic`, the destination holds exactly the new
contents. -/
theorem write_atomic_mid_lookup_tmp (fs : Fs) (path tmp : Path)
    (contents : String) (h : tmp ≠ path) :
    fsLookup (write_atomic_mid fs path tmp contents) tmp = some contents := by
  unfold write_atomic_mid
  split
  · rw [fsLookup_remove_ne _ _ _ h, fsLookup_set_self]
  · rw [fsLookup_set_self]

theorem write_atomic_mid_lookup_path (fs : Fs) (path tmp : Path)
    (contents : String) :
    fsLookup (write_atomic_mid fs path tmp contents) path = none ∨
    fsLookup (write_atomic_mid fs path tmp contents) path
      = fsLookup (fsSet fs tmp contents) path := by
  unfold write_atomic_mid
  split
  · left
    exact fsLookup_remove_self _ _
  · right
    rfl

theorem write_atomic_model_lookup (fs : Fs) (path tmp : Path)
    (contents : String) (h : tmp ≠ path) :
    fsLookup (write_atomic_model fs path tmp contents) path = some contents := by
  unfold write_atomic_model fsRename
  rw [write_atomic_mid_lookup_tmp fs path tmp contents h]
  exact fsLookup_set_self _ _ _

/-- **C2** (amended).  Starting from any filesystem, after
`write_atomic(path, A)` the file holds exactly `A`; during the
subsequent `write_atomic(path, B)` every visible state of `path` is the
complete `A`, the complete `B`, or — in the momentary window between the
remove and the rename — absent (a read fails rather than observing a
mixture); and afterwards the file holds exactly `B`.  The temporary
files carry fresh UUID names distinct from `path`. -/
theorem write_atomic_no_mixture (fs : Fs) (path t1 t2 : Path) (cA cB : String)
    (h1 : t1 ≠ path) (h2 : t2 ≠ path) :
    fsLookup (write_atomic_model fs path t1 cA) path = some cA
    ∧ (∀ s ∈ write_atomic_states (write_atomic_model fs path t1 cA) path t2 cB,
        ∀ c, fsLookup s path = some c → c = cA ∨ c = cB)
    ∧ fsLookup
        (write_atomic_model (write_atomic_model fs path t1 cA) path t2 cB)
        path = some cB := by
  set fs1 := write_atomic_model fs path t1 cA with hfs1
  have hA : fsLookup fs1 path = some cA := write_atomic_model_lookup fs path t1 cA h1
  refine ⟨hA, ?_, write_atomic_model_lookup fs1 path t2 cB h2⟩
  intro s hs c hc
  simp only [write_atomic_states, List.mem_cons, List.not_mem_nil,
    or_false] at hs
  rcases hs with hs | hs | hs | hs
  · subst hs
    rw [hA] at hc
    injection hc with hc
    exact Or.inl hc.symm
  · subst hs
    rw [fsLookup_set_ne _ _ _ _ (Ne.symm h2), hA] at hc
    injection hc with hc
    exact Or.inl hc.symm
  · subst hs
    rcases write_atomic_mid_lookup_path fs1 path t2 cB with hm | hm
    · rw [hm] at hc
      exact absurd hc (by simp)
    · rw [hm, fsLookup_set_ne _ _ _ _ (Ne.symm h2), hA] at hc
      injection hc with hc
      exact Or.inl hc.symm
  · subst hs
    rw [write_atomic_model_lookup fs1 path t2 cB h2] at hc
    injection hc with hc
    exact Or.inr hc.symm

/-- **C2** counterexample.  The literal claim "any read of `path`
returns either `A` or `B`" fails: in the concrete trace of the second
`write_atomic`, the state between the remove and the rename has no file
at `path` at all, so a read there returns neither string (it fails with
NotFound, as §4.2/§9 of the spec acknowledge). -/
theorem write_atomic_absent_window :
    ¬ (∀ s ∈ write_atomic_states
          (write_atomic_model [] "f".data "t1".data "A") "f".data "t2".data "B",
        fsLookup s "f".data = some "A" ∨ fsLookup s "f".data = some "B") := by
  decide

/-- Witness for `write_atomic_no_mixture` on a concrete filesystem. -/
theorem write_atomic_no_mixture_witness :
    fsLookup (write_atomic_model [] "f".data "t1".data "A") "f".data = some "A"
    ∧ (∀ s ∈ write_atomic_states
          (write_atomic_model [] "f".data "t1".data "A") "f".data "t2".data "B",
        ∀ c, fsLookup s "f".data = some c → c = "A" ∨ c = "B")
    ∧ fsLookup
        (write_atomic_model (write_atomic_model [] "f".data "t1".data "A")
          "f".data "t2".data "B") "f".data = some "B" :=
  write_atomic_no_mixture [] "f".data "t1".data "t2".data "A" "B"
    (by decide) (by decide)

theorem validate_relative_path_cases (p : Path) :
    validate_relative_path p = .ok p
    ∨ validate_relative_path p = .error "Path must be relative"
    ∨ validate_relative_path p = .error "Path must not contain '..'" := by
  unfold validate_relative_path
  split
  · right
    left
    rfl
  · split
    · right
      right
      rfl
    · left
      rfl

theorem create_note_target_cases (targetDir : Option Path) :
    (∃ t, vault_create_note_target targetDir = .ok t)
    ∨ vault_create_note_target targetDir = .error "Path must be relative"
    ∨ vault_create_note_target targetDir = .error "Path must not contain '..'"
    ∨ vault_create_note_target targetDir = .error
        "Target directory must be under notes/inbox, notes/folders, or notes/projects" := by
  rcases validate_relative_path_cases (targetDir.getD "notes/inbox".data)
    with h | h | h
  · simp only [vault_create_note_target, h]
    split
    · left
      exact ⟨_, rfl⟩
    · right
      right
      right
      rfl
  · simp only [vault_create_note_target, h]
    right
    left
    trivial
  · simp only [vault_create_note_target, h]
    right
    right
    left
    trivial

/-- The `vault_move_note` target gate is exactly the claim's
confinement predicate. -/
theorem move_target_allowed_iff (t : Path) :
    moveTargetAllowed t = inAllowedSubtrees t := by
  unfold moveTargetAllowed inAllowedSubtrees
  rw [Bool.eq_iff_iff]
  simp only [Bool.or_eq_true]
  tauto

/-- **C4**: the target gate of note creation is a `starts_with` match
without a trailing separator, so it accepts sibling directories such as
`notes/inboxx`, which is not `notes/inbox`, `notes/folders`, or
`notes/projects` and lies inside none of those subtrees — contradicting
the gate's own error message ("must be under notes/inbox, ...") and the
spec's confinement invariant.  `vault_move_note`'s gate (separator-aware)
coincides with the claim's predicate. -/
theorem create_note_target_prefix_bug :
    vault_create_note_target (some "notes/inboxx".data)
      = .ok "notes/inboxx".data
    ∧ inAllowedSubtrees "notes/inboxx".data = false
    ∧ moveTargetAllowed "notes/inboxx".data = false
    ∧ (vault_create_note_model [] (some "notes/inboxx".data)
        "2026-01-01".data "abcd1234".data "id0" "now0" ".t".data).isOk = true
    ∧ (∀ t : Path, moveTargetAllowed t = inAllowedSubtrees t) :=
  ⟨rfl, by decide, by decide, rfl, move_target_allowed_iff⟩

/-- **C6** counterexample.  `vault_create_note` performs no collision
check: with a file already present at the computed path (concretely,
`notes/inbox/2026-01-01-untitled-abcd1234.md` holding `"OLD"`), the call
succeeds (no `AlreadyExists`) and the existing file is silently replaced
by the new note's frontmatter. -/
theorem create_note_overwrites_on_collision :
    fsLookup [("notes/inbox/2026-01-01-untitled-abcd1234.md".data, "OLD")]
        "notes/inbox/2026-01-01-untitled-abcd1234.md".data = some "OLD"
    ∧ vault_create_note_model
        [("notes/inbox/2026-01-01-untitled-abcd1234.md".data, "OLD")]
        none "2026-01-01".data "abcd1234".data "id0" "now0" ".t".data
      = .ok ("notes/inbox/2026-01-01-untitled-abcd1234.md".data,
          frontmatter "id0" "now0" false,
          write_atomic_model
            [("notes/inbox/2026-01-01-untitled-abcd1234.md".data, "OLD")]
            "notes/inbox/2026-01-01-untitled-abcd1234.md".data ".t".data
            (frontmatter "id0" "now0" false))
    ∧ fsLookup
        (write_atomic_model
          [("notes/inbox/2026-01-01-untitled-abcd1234.md".data, "OLD")]
          "notes/inbox/2026-01-01-untitled-abcd1234.md".data ".t".data
          (frontmatter "id0" "now0" false))
        "notes/inbox/2026-01-01-untitled-abcd1234.md".data
      = some (frontmatter "id0" "now0" false)
    ∧ frontmatter "id0" "now0" false ≠ "OLD" :=
  ⟨rfl, rfl, rfl, by decide⟩

/-- **C6** (amended).  `vault_create_note` never fails with
`AlreadyExists` ("Note file already exists" is not among its possible
errors), and on success the computed path holds exactly the new note's
contents — so a filename collision is silently overwritten rather than
rejected (the existence check exists only in
`vault_create_note_from_markdown`). -/
theorem create_note_never_already_exists (fs : Fs) (targetDir : Option Path)
    (date idShort : Path) (idFull nowIso : String) (tmp : Path) :
    vault_create_note_model fs targetDir date idShort idFull nowIso tmp
      ≠ .error "Note file already exists"
    ∧ (∀ p c fs2,
        vault_create_note_model fs targetDir date idShort idFull nowIso tmp
          = .ok (p, c, fs2) →
        tmp ≠ p → fsLookup fs2 p = some c) := by
  rcases create_note_target_cases targetDir with ⟨t, ht⟩ | ht | ht | ht
  · constructor
    · simp [vault_create_note_model, ht]
    · intro p c fs2 heq htmp
      simp only [vault_create_note_model, ht, Except.ok.injEq,
        Prod.mk.injEq] at heq
      obtain ⟨hp, hc, hfs⟩ := heq
      subst hp
      subst hc
      subst hfs
      exact write_atomic_model_lookup _ _ _ _ htmp
  all_goals refine ⟨?_, ?_⟩
  all_goals first
  | (simp only [vault_create_note_model, ht]
     intro hcontra
     injection hcontra with hcontra
     revert hcontra
     decide)
  | (intro p c fs2 heq htmp
     simp only [vault_create_note_model, ht] at heq
     exact Except.noConfusion heq)

/-- Witness for `create_note_never_already_exists` on the empty
filesystem with default (inbox) target. -/
theorem create_note_never_already_exists_witness :
    vault_create_note_model [] none "2026-01-01".data "abcd1234".data "id0"
        "now0" ".t".data ≠ .error "Note file already exists"
    ∧ fsLookup
        (write_atomic_model []
          "notes/inbox/2026-01-01-untitled-abcd1234.md".data ".t".data
          (frontmatter "id0" "now0" false))
        "notes/inbox/2026-01-01-untitled-abcd1234.md".data
      = some (frontmatter "id0" "now0" false) :=
  have h := create_note_never_already_exists [] none "2026-01-01".data
    "abcd1234".data "id0" "now0" ".t".data
  ⟨h.1, h.2 _ _ _ rfl (by decide)⟩

/-- **C7** counterexample.  For a `title_hint` whose slug empties to
nothing (here `"!!!"`, punctuation only), the filename's slug component
is the literal `"project"` — `slugify`'s shared fallback — and not the
literal `"note"` the claim states; `"note"` is used only when
`title_hint` is absent. -/
theorem from_markdown_slug_fallback_counterexample :
    fromMarkdownSlug (some "!!!".data) = "project".data
    ∧ "project".data ≠ "note".data
    ∧ fromMarkdownFileName "2026-10-12".data (some "!!!".data)
        "abc123ff".data "deadbeef".data
      = "2026-10-12-project-abc123ff.md".data :=
  ⟨rfl, by decide, rfl⟩

/-- **C7** (amended).  In `vault_create_note_from_markdown` the filename
is `<date>-<slug>-<idShort>.md` where the slug component equals
`slugify(title_hint)` when `title_hint` is present — which falls back to
the literal `"project"` (slugify's shared default) when the slug empties
to nothing — and is the literal `"note"` exactly when `title_hint` is
absent; the id component is the first 8 non-dash characters of the
trimmed id, falling back to the 8 random hex characters when the id has
no usable characters. -/
theorem from_markdown_filename_parts (date : Path) (titleHint : Option Path)
    (idTrimmed randHex : Path) :
    fromMarkdownFileName date titleHint idTrimmed randHex
      = date ++ '-' :: fromMarkdownSlug titleHint
          ++ '-' :: fromMarkdownIdShort idTrimmed randHex ++ ".md".data
    ∧ fromMarkdownSlug none = "note".data
    ∧ (∀ t, fromMarkdownSlug (some t) = slugify t)
    ∧ (∀ t, rustTrimDashes (slugifyLoop (rustTrim t) false) = [] →
        slugify t = "project".data)
    ∧ ((idTrimmed.filter (fun c => !(c == '-'))).take 8 ≠ [] →
        fromMarkdownIdShort idTrimmed randHex
          = (idTrimmed.filter (fun c => !(c == '-'))).take 8)
    ∧ ((idTrimmed.filter (fun c => !(c == '-'))).take 8 = [] →
        fromMarkdownIdShort idTrimmed randHex = randHex) := by
  refine ⟨rfl, rfl, fun t => rfl, ?_, ?_, ?_⟩
  · intro t h
    unfold slugify
    simp [h]
  · intro h
    unfold fromMarkdownIdShort
    simp [h]
  · intro h
    unfold fromMarkdownIdShort
    simp [h]

/-- Witness for `from_markdown_filename_parts`: a dashed UUID-like id
keeps its first 8 non-dash characters, and an all-dash title slug falls
back to `"project"`. -/
theorem from_markdown_filename_parts_witness :
    fromMarkdownIdShort "abc-def-123456".data "ffffffff".data
      = "abcdef12".data
    ∧ slugify "---".data = "project".data :=
  have h := from_markdown_filename_parts "2026-10-12".data
    (some "Hello".data) "abc-def-123456".data "ffffffff".data
  ⟨(h.2.2.2.2.1 (by decide)).trans (by decide),
    h.2.2.2.1 "---".data (by decide)⟩

theorem notes_prefix_from_archive (s : Path)
    (h : "notes/archive/".data.isPrefixOf s = true) :
    "notes/".data.isPrefixOf s = true := by
  rw [List.isPrefixOf_iff_prefix] at h ⊢
  exact List.IsPrefix.trans (by decide) h

/-- **C5**.  `vault_archive_note` moves `notes/inbox/a.md` to
`notes/archive/inbox/a.md` (the mirrored relative position); for any
valid path already under `notes/archive/` it is a no-op returning the
same path; for any valid path not under `notes/` it fails with the
InvalidArgument message; and for any valid path whose source file does
not exist it fails with the NotFound message (the existence check runs
first, before the archive-prefix checks). -/
theorem archive_note_behavior (rel : Path) :
    vault_archive_note_model true "notes/inbox/a.md".data
      = .ok (.moved "notes/archive/inbox/a.md".data)
    ∧ (validate_relative_path rel = .ok rel →
        "notes/archive/".data.isPrefixOf (path_to_forward_slashes rel) = true →
        vault_archive_note_model true rel
          = .ok (.noop (path_to_forward_slashes rel)))
    ∧ (validate_relative_path rel = .ok rel →
        "notes/".data.isPrefixOf (path_to_forward_slashes rel) = false →
        vault_archive_note_model true rel
          = .error "Can only archive notes under notes/")
    ∧ (validate_relative_path rel = .ok rel →
        vault_archive_note_model false rel = .error "Note does not exist") := by
  refine ⟨rfl, ?_, ?_, ?_⟩
  · intro hv harch
    simp only [vault_archive_note_model, hv, harch, Bool.not_true, if_true,
      ite_true, Bool.false_eq_true, if_false, ite_false]
  · intro hv hnotes
    have harch : "notes/archive/".data.isPrefixOf
        (path_to_forward_slashes rel) = false := by
      by_contra hcontra
      rw [Bool.not_eq_false] at hcontra
      rw [notes_prefix_from_archive _ hcontra] at hnotes
      exact Bool.noConfusion hnotes
    simp only [vault_archive_note_model, hv, harch, hnotes, Bool.not_true,
      Bool.not_false, Bool.false_eq_true, if_false, ite_false, if_true,
      ite_true]
  · intro hv
    simp only [vault_archive_note_model, hv, Bool.not_false, if_true,
      ite_true]

/-- Witness for `archive_note_behavior`: already-archived paths no-op,
paths outside `notes/` are rejected, and missing sources are NotFound. -/
theorem archive_note_behavior_witness :
    vault_archive_note_model true "notes/archive/inbox/a.md".data
      = .ok (.noop "notes/archive/inbox/a.md".data)
    ∧ vault_archive_note_model true "assets/pic.png".data
      = .error "Can only archive notes under notes/"
    ∧ vault_archive_note_model false "notes/inbox/a.md".data
      = .error "Note does not exist" :=
  ⟨(archive_note_behavior "notes/archive/inbox/a.md".data).2.1
      rfl (by decide),
    (archive_note_behavior "assets/pic.png".data).2.2.1
      rfl (by decide),
    (archive_note_behavior "notes/inbox/a.md".data).2.2.2 rfl⟩

theorem listProjectsInternal_ok_eq (entries : List ProjEntry)
    (l : List (Path × ProjectMeta))
    (h : listProjectsInternal entries = .ok l) : l = projFilter entries := by
  induction entries generalizing l with
  | nil =>
    simp only [listProjectsInternal, Except.ok.injEq] at h
    subst h
    rfl
  | cons e rest ih =>
    by_cases hd : e.isDir
    · simp only [listProjectsInternal, hd, if_true, ite_true] at h
      match hs : e.sidecar with
      | none =>
        rw [hs] at h
        rw [ih l h]
        simp [projFilter, hd, hs]
      | some (.error msg) =>
        rw [hs] at h
        exact Except.noConfusion h
      | some (.ok m) =>
        rw [hs] at h
        match hr : listProjectsInternal rest with
        | .error msg =>
          rw [hr] at h
          exact Except.noConfusion h
        | .ok l2 =>
          rw [hr] at h
          injection h with h
          subst h
          rw [ih l2 hr]
          simp [projFilter, hd, hs]
    · simp only [listProjectsInternal, hd, if_false, ite_false] at h
      rw [ih l h]
      simp [projFilter, hd]

theorem listProjectsInternal_error_of_malformed (entries : List ProjEntry)
    (h : ∃ e ∈ entries, e.isDir = true ∧ ∃ msg, e.sidecar = some (.error msg)) :
    ∀ l, listProjectsInternal entries ≠ .ok l := by
  induction entries with
  | nil =>
    obtain ⟨e, he, _⟩ := h
    exact absurd he (List.not_mem_nil e)
  | cons e rest ih =>
    intro l hl
    obtain ⟨e0, he0, hd0, msg0, hs0⟩ := h
    rcases List.mem_cons.mp he0 with heq | hmem
    · subst heq
      simp only [listProjectsInternal, hd0, if_true, ite_true, hs0] at hl
      exact Except.noConfusion hl
    · have hrest := ih ⟨e0, hmem, hd0, msg0, hs0⟩
      by_cases hd : e.isDir
      · simp only [listProjectsInternal, hd, if_true, ite_true] at hl
        match hs : e.sidecar with
        | none =>
          rw [hs] at hl
          exact hrest l hl
        | some (.error msg) =>
          rw [hs] at hl
          exact Except.noConfusion hl
        | some (.ok m) =>
          rw [hs] at hl
          match hr : listProjectsInternal rest with
          | .error msg =>
            rw [hr] at hl
            exact Except.noConfusion hl
          | .ok l2 =>
            exact hrest l2 hr
      · simp only [listProjectsInternal, hd, if_false, ite_false] at hl
        exact hrest l hl

/-- **C9**.  A successful `vault_list_projects` scan lists exactly the
immediate children of `notes/projects` that are directories with a
parseable `.project.json` sidecar (non-directories and directories with
no sidecar are silently skipped), and the presence of any directory
whose sidecar exists but fails to parse makes the whole call fail with
a parse error instead of skipping that entry. -/
theorem list_projects_sidecar (entries : List ProjEntry) :
    (∀ l, listProjectsInternal entries = .ok l → l = projFilter entries)
    ∧ ((∃ e ∈ entries, e.isDir = true ∧ ∃ msg, e.sidecar = some (.error msg)) →
        ∀ l, listProjectsInternal entries ≠ .ok l) :=
  ⟨fun l h => listProjectsInternal_ok_eq entries l h,
    fun h => listProjectsInternal_error_of_malformed entries h⟩

/-- Witness for `list_projects_sidecar`: a directory with a good
sidecar, a plain file, and a sidecar-less directory list as just the
first; adding a directory with a malformed sidecar fails the call. -/
theorem list_projects_sidecar_witness :
    [("notes/projects/alpha".data,
        (⟨"id1", "Alpha", "active", "c1", "m1"⟩ : ProjectMeta))]
      = projFilter
          [⟨"notes/projects/alpha".data, true,
              some (.ok ⟨"id1", "Alpha", "active", "c1", "m1"⟩)⟩,
            ⟨"notes/projects/readme.txt".data, false, none⟩,
            ⟨"notes/projects/empty".data, true, none⟩]
    ∧ listProjectsInternal
        [⟨"notes/projects/alpha".data, true,
            some (.ok ⟨"id1", "Alpha", "active", "c1", "m1"⟩)⟩,
          ⟨"notes/projects/bad".data, true, some (.error "Invalid JSON")⟩]
      ≠ .ok [] :=
  ⟨(list_projects_sidecar _).1 _ rfl,
    (list_projects_sidecar _).2
      ⟨⟨"notes/projects/bad".data, true, some (.error "Invalid JSON")⟩,
        List.mem_cons_of_mem _ (List.mem_cons_self _ _),
        rfl, "Invalid JSON", rfl⟩ []⟩

theorem projectRenameTarget_collision (dirExists : Path → Bool)
    (folderPath desired short : Path)
    (h1 : dirExists desired = true) (h2 : desired ≠ folderPath) :
    projectRenameTarget dirExists folderPath desired short
      = desired ++ '-' :: short := by
  unfold projectRenameTarget
  rw [if_pos]
  rw [h1]
  simp [h2]

/-- **C8**.  `vault_update_project` with only a status change keeps the
folder path and every sidecar field except `status` and `modified`
unchanged; and when the new name's slug collides with a different
existing project directory, the rename target is the fresh
suffix-disambiguated directory — distinct from the colliding directory
(no overwrite) and nonexistent at the time of the rename. -/
theorem update_project_frame (dirExists : Path → Bool) (folderPath : Path)
    (meta : ProjectMeta) (status now : String) (short : Path) (nm : String)
    (stArg : Option String) :
    vault_update_project_model dirExists folderPath meta none (some status)
        now short
      = (folderPath, { meta with status := status, modified := now })
    ∧ (dirExists ("notes/projects/".data ++ slugify nm.data) = true →
        "notes/projects/".data ++ slugify nm.data ≠ folderPath →
        dirExists ("notes/projects/".data ++ slugify nm.data
          ++ '-' :: short) = false →
        dirExists folderPath = true →
        vault_update_project_model dirExists folderPath meta (some nm) stArg
            now short
          = ("notes/projects/".data ++ slugify nm.data ++ '-' :: short,
              updatedMeta meta (some nm) stArg now)
        ∧ (updatedMeta meta (some nm) stArg now).id = meta.id
        ∧ (updatedMeta meta (some nm) stArg now).created = meta.created
        ∧ "notes/projects/".data ++ slugify nm.data ++ '-' :: short
            ≠ "notes/projects/".data ++ slugify nm.data
        ∧ dirExists ("notes/projects/".data ++ slugify nm.data
            ++ '-' :: short) = false) := by
  constructor
  · rfl
  · intro hcol hne hfresh hself
    have hname : (updatedMeta meta (some nm) stArg now).name = nm := rfl
    have htarget : projectRenameTarget dirExists folderPath
        ("notes/projects/".data
          ++ slugify (updatedMeta meta (some nm) stArg now).name.data) short
        = "notes/projects/".data ++ slugify nm.data ++ '-' :: short := by
      rw [hname]
      exact projectRenameTarget_collision dirExists folderPath _ short hcol hne
    have htarget_ne_folder :
        "notes/projects/".data ++ slugify nm.data ++ '-' :: short
          ≠ folderPath := by
      intro heq
      rw [heq, hself] at hfresh
      exact Bool.noConfusion hfresh
    refine ⟨?_, rfl, rfl, ?_, hfresh⟩
    · simp only [vault_update_project_model, htarget]
      rw [if_neg]
      intro hcontra
      exact htarget_ne_folder (eq_of_beq hcontra)
    · intro heq
      have := congrArg List.length heq
      simp at this

/-- Witness for `update_project_frame`: project `alpha` renamed to the
colliding name `Beta` lands in `beta-`suffix, and a pure status change
touches nothing else. -/
theorem update_project_frame_witness :
    vault_update_project_model
        (fun p => p == "notes/projects/alpha".data
          || p == "notes/projects/beta".data)
        "notes/projects/alpha".data
        ⟨"id1", "Alpha", "active", "c1", "m1"⟩ none (some "archived")
        "m2" "ab12cd".data
      = ("notes/projects/alpha".data,
          ⟨"id1", "Alpha", "archived", "c1", "m2"⟩)
    ∧ vault_update_project_model
        (fun p => p == "notes/projects/alpha".data
          || p == "notes/projects/beta".data)
        "notes/projects/alpha".data
        ⟨"id1", "Alpha", "active", "c1", "m1"⟩ (some "Beta") none
        "m2" "ab12cd".data
      = ("notes/projects/beta-ab12cd".data,
          ⟨"id1", "Beta", "active", "c1", "m2"⟩) := by
  have h := update_project_frame
    (fun p => p == "notes/projects/alpha".data
      || p == "notes/projects/beta".data)
    "notes/projects/alpha".data
    ⟨"id1", "Alpha", "active", "c1", "m1"⟩ "archived" "m2" "ab12cd".data
    "Beta" none
  constructor
  · exact h.1
  · have h2 := h.2 (by decide) (by decide) (by decide) (by decide)
    rw [h2.1]
    decide

/-- **C10**.  `vault_delete_folder` on a valid `notes/folders/...` path
that does not exist on disk fails with the NotEmpty error "Folder is
not empty" (the walk's error entry for the missing root counts as
content), not with a NotFound error. -/
theorem delete_missing_folder_not_empty (fsPaths : List Path) (rel : Path)
    (hv : validate_relative_path rel = .ok rel)
    (hpre : "notes/folders/".data.isPrefixOf (path_to_forward_slashes rel)
      = true)
    (hmiss : fsPaths.contains rel = false) :
    vault_delete_folder_model fsPaths rel = .error "Folder is not empty" := by
  simp only [vault_delete_folder_model, hv, hpre, Bool.not_true,
    Bool.false_eq_true, if_false, ite_false, walkdirHasEntryMinDepth1,
    hmiss, if_true, ite_true]

/-- Witness for `delete_missing_folder_not_empty`: deleting the absent
folder `notes/folders/ghost` in a vault containing only the skeleton
reports "Folder is not empty". -/
theorem delete_missing_folder_not_empty_witness :
    vault_delete_folder_model
        ["notes".data, "notes/folders".data, "notes/inbox".data]
        "notes/folders/ghost".data
      = .error "Folder is not empty" :=
  delete_missing_folder_not_empty
    ["notes".data, "notes/folders".data, "notes/inbox".data]
    "notes/folders/ghost".data rfl (by decide) (by decide)

end Homebase

